import Mathlib

/-!
Verification development for `insightidr_updater.py` (InsightIDR Investigation
Updater).  The definitions below are a shallow embedding of the core of that
program: timestamp parsing and the view projection (`rebuild_list` /
`_sorted_rows_current_view` / `_apply_assignee_filter`), the comment history
(`_add_to_comment_history` / `_save_comment_history` / `_load_comment_history`),
the paginated fetcher (`list_investigations`), the API helpers (`get_rrn`,
`create_comment_v1`, `assign_user`, `set_status`, `set_disposition`) and the
bulk-update worker (`update_selected_async`).  Network traffic is modelled by an
explicit oracle (`Net`) together with a trace of issued requests (`ApiCall`).
-/

namespace InsightIDR

/-! ### Timestamp parsing

The program sorts investigations by `created_time`, parsed with
`datetime.fromisoformat` after replacing a trailing `"Z"` with `"+00:00"`
(see `rebuild_list.key_fn` and `_sorted_rows_current_view.key_fn`).  We model
the parse of the timestamp shape `YYYY-MM-DDTHH:MM:SS[.ffffff][±HH:MM]` as a
`PyDateTime`: an `Int` counting microseconds from 0001-01-01T00:00:00,
tagged `aware` when the string carried a UTC offset (or the replaced `"Z"`)
and `naive` when it carried none — exactly the distinction
`datetime.fromisoformat` draws.  Two aware values compare by their
offset-adjusted instants and two naive values compare field-lexicographically
(equal to comparing their civil instants); comparing a naive with an aware
value raises `TypeError` in Python, which the sort model surfaces as `none`
(the code's trailing-`Z` replacement is modelled by dropping the final
character, which agrees with `str.replace` on every string whose parse can
succeed). -/

/-- Whitespace as Python's `str.strip()` removes it (ASCII range). -/
def isPySpace (c : Char) : Bool :=
  c = ' ' || c = '\t' || c = '\n' || c = '\x0d' || c = '\x0b' || c = '\x0c'

/-- Model of Python `str.strip()` on the character list. -/
def pyStripChars (cs : List Char) : List Char :=
  ((cs.dropWhile isPySpace).reverse.dropWhile isPySpace).reverse

/-- Model of Python `str.strip()`. -/
def pyStrip (s : String) : String :=
  String.mk (pyStripChars s.data)

/-- Model of Python `str.startswith` via the character lists. -/
def startsWithChars : List Char → List Char → Bool
  | [], _ => true
  | _ :: _, [] => false
  | p :: ps, c :: cs => p = c && startsWithChars ps cs

/-- Model of Python `s.startswith(pre)`. -/
def pyStartsWith (s pre : String) : Bool :=
  startsWithChars pre.data s.data

def digitVal (c : Char) : Option Nat :=
  if c.isDigit then some (c.toNat - 48) else none

def twoDigits (a b : Char) : Option Nat := do
  let x ← digitVal a
  let y ← digitVal b
  pure (x * 10 + y)

def fourDigits (a b c d : Char) : Option Nat := do
  let x ← twoDigits a b
  let y ← twoDigits c d
  pure (x * 100 + y)

def isLeap (y : Nat) : Bool :=
  (y % 4 = 0 && y % 100 ≠ 0) || y % 400 = 0

def daysInMonth (y m : Nat) : Nat :=
  if m = 2 then (if isLeap y then 29 else 28)
  else if m = 4 ∨ m = 6 ∨ m = 9 ∨ m = 11 then 30
  else 31

def daysBeforeMonth (y m : Nat) : Nat :=
  (List.range (m - 1)).foldl (fun acc i => acc + daysInMonth y (i + 1)) 0

/-- Days from 0001-01-01 to the given civil date (proleptic Gregorian), the
ordering `datetime.date` uses. -/
def daysFromCivil (y m d : Nat) : Nat :=
  (y - 1) * 365 + ((y - 1) / 4 - (y - 1) / 100) + (y - 1) / 400
    + daysBeforeMonth y m + (d - 1)

/-- Instant key of a civil datetime with a UTC offset (in seconds) and a
microsecond part: microseconds from 0001-01-01T00:00:00 UTC. -/
def dtKey (y mo dy hr mi se : Nat) (off : Int) (micro : Nat) : Int :=
  (((daysFromCivil y mo dy) * 86400 + hr * 3600 + mi * 60 + se : Int) - off) * 1000000
    + micro

/-- Value of a fractional-seconds digit run (first six digits, right-padded),
as `datetime.fromisoformat` reads it. -/
def microVal (ds : List Char) : Nat :=
  let six := ds.take 6
  (six.foldl (fun a c => a * 10 + (c.toNat - 48)) 0) * 10 ^ (6 - six.length)

/-- A parsed `datetime` value: `aware` carries an offset-adjusted instant
(microseconds from 0001-01-01T00:00:00 UTC), `naive` carries the civil
instant of an offset-less timestamp.  Matches `fromisoformat`'s aware/naive
distinction. -/
inductive PyDateTime where
  | aware (k : Int)
  | naive (k : Int)
deriving DecidableEq

/-- Parse of a `±HH:MM` UTC offset in seconds; `some none` is an offset-less
(naive) timestamp, outer `none` a malformed tail. -/
def parseOffset : List Char → Option (Option Int)
  | [] => some none
  | '+' :: h1 :: h2 :: ':' :: m1 :: m2 :: [] => do
      let h ← twoDigits h1 h2
      let m ← twoDigits m1 m2
      if h ≤ 23 ∧ m ≤ 59 then pure (some ((h * 3600 + m * 60 : Nat) : Int)) else none
  | '-' :: h1 :: h2 :: ':' :: m1 :: m2 :: [] => do
      let h ← twoDigits h1 h2
      let m ← twoDigits m1 m2
      if h ≤ 23 ∧ m ≤ 59 then pure (some (-((h * 3600 + m * 60 : Nat) : Int))) else none
  | _ => none

/-- Parse of the tail after `YYYY-MM-DDTHH:MM:SS`: an optional fractional part
followed by an optional offset.  Returns (microseconds, offset seconds if
any). -/
def parseTail : List Char → Option (Nat × Option Int)
  | [] => some (0, none)
  | '.' :: ds =>
      let digs := ds.takeWhile (fun c => c.isDigit)
      let rest := ds.dropWhile (fun c => c.isDigit)
      if digs.isEmpty then none
      else do
        let off ← parseOffset rest
        pure (microVal digs, off)
  | cs => do
      let off ← parseOffset cs
      pure (0, off)

/-- Parse of `YYYY-MM-DDTHH:MM:SS[.ffffff][±HH:MM]` with the field-range
validation `datetime.fromisoformat` performs; an offset yields an aware
value, its absence a naive one. -/
def parseIsoChars : List Char → Option PyDateTime
  | y1 :: y2 :: y3 :: y4 :: '-' :: m1 :: m2 :: '-' :: d1 :: d2 :: 'T' ::
      h1 :: h2 :: ':' :: i1 :: i2 :: ':' :: s1 :: s2 :: rest => do
    let y ← fourDigits y1 y2 y3 y4
    let mo ← twoDigits m1 m2
    let dy ← twoDigits d1 d2
    let hr ← twoDigits h1 h2
    let mi ← twoDigits i1 i2
    let se ← twoDigits s1 s2
    let (micro, off) ← parseTail rest
    if 1 ≤ y ∧ 1 ≤ mo ∧ mo ≤ 12 ∧ 1 ≤ dy ∧ dy ≤ daysInMonth y mo ∧
        hr ≤ 23 ∧ mi ≤ 59 ∧ se ≤ 59 then
      pure (match off with
            | some o => PyDateTime.aware (dtKey y mo dy hr mi se o micro)
            | none => PyDateTime.naive (dtKey y mo dy hr mi se 0 micro))
    else none
  | _ => none

/-- Model of the `try` block of `key_fn`: replace a trailing `"Z"` with
`"+00:00"` and parse with `datetime.fromisoformat`; `none` is the `except`
branch. -/
def pyFromIso (dt : String) : Option PyDateTime :=
  let cs := dt.data
  let cs2 := if cs.getLast? = some 'Z' then cs.dropLast ++ ['+', '0', '0', ':', '0', '0'] else cs
  parseIsoChars cs2

/-- Instant of the epoch: 1970-01-01T00:00:00 UTC. -/
def epochKey : Int := dtKey 1970 1 1 0 0 0 0 0

/-- Fallback key of `key_fn`'s `except` branch: `datetime(1970, 1, 1,
tzinfo=timezone.utc)`, an aware value. -/
def epochDT : PyDateTime := PyDateTime.aware epochKey

/-- The instant a `PyDateTime` compares by against values of its own
class. -/
def dtInstant : PyDateTime → Int
  | PyDateTime.aware k => k
  | PyDateTime.naive k => k

/-- Whether a `PyDateTime` is offset-aware. -/
def dtIsAware : PyDateTime → Bool
  | PyDateTime.aware _ => true
  | PyDateTime.naive _ => false

/-- Python's `datetime` order comparison: defined (by instant) between two
values of the same awareness class; a naive/aware comparison raises
`TypeError`, modelled as `none`. -/
def dtLE (a b : PyDateTime) : Option Bool :=
  if dtIsAware a = dtIsAware b then some (decide (dtInstant a ≤ dtInstant b)) else none

/-! ### Investigation records and the view projection -/

/-- An investigation record as the program reads it out of the API `Dict`:
only the fields the core logic touches.  `assignee_email` is the value of
`(rec.get("assignee") or {}).get("email") or ""`: the empty string models a
missing assignee object, a missing email field, and an empty email alike. -/
structure Rec where
  id : String := ""
  rrn : String := ""
  title : String := ""
  created_time : String := ""
  assignee_email : String := ""
deriving DecidableEq

/-- Sort key of `rebuild_list.key_fn` / `_sorted_rows_current_view.key_fn`:
the parsed `created_time`, or the aware `datetime(1970, 1, 1, UTC)` when
parsing fails. -/
def key_fn (r : Rec) : PyDateTime :=
  (pyFromIso r.created_time).getD epochDT

/-- Whether the key set mixes naive and aware values, i.e. whether some
`datetime` comparison the sort must make raises `TypeError`. -/
def mixedKeys (rows : List Rec) : Bool :=
  (rows.any (fun r => dtIsAware (key_fn r))) && (rows.any (fun r => !dtIsAware (key_fn r)))

/-- The order `sorted` computes when all its comparisons are defined.
CPython's sort is stable, and with `reverse=True` it is documented to remain
stable (equal keys keep their input order); any stable sort computes the same
output, so we use `List.insertionSort` with the instant comparison, flipped
when `rev` is set. -/
def sortRecs (rev : Bool) (rows : List Rec) : List Rec :=
  if rev then List.insertionSort (fun a b => dtInstant (key_fn b) ≤ dtInstant (key_fn a)) rows
  else List.insertionSort (fun a b => dtInstant (key_fn a) ≤ dtInstant (key_fn b)) rows

/-- Model of `sorted(rows, key=key_fn, reverse=rev)`.  When the keys mix
naive and aware values, every chain of comparisons connecting a naive to an
aware element crosses the class boundary, so any comparison sort — CPython's
included — performs a naive/aware comparison and raises `TypeError`: the
result is `none`.  Otherwise every comparison is the defined same-class
instant comparison (`dtLE`) and the stable order results. -/
def pySorted (rev : Bool) (rows : List Rec) : Option (List Rec) :=
  if mixedKeys rows then none else some (sortRecs rev rows)

/-- Model of `App._assignee_from_rec`. -/
def assignee_from_rec (r : Rec) : String :=
  pyStrip r.assignee_email

/-- Model of `App._apply_assignee_filter` with the combo-box choice passed
explicitly. -/
def apply_assignee_filter (choice : String) (rows : List Rec) : List Rec :=
  if choice = "All" then rows
  else if choice = "Unassigned" then rows.filter (fun r => assignee_from_rec r == "")
  else rows.filter (fun r => assignee_from_rec r == choice)

/-- Model of `App._sorted_rows_current_view` (also the projection inside
`rebuild_list`): sort by `key_fn` with `reverse=not sort_oldest_first`, then
filter; a `TypeError` from the sort propagates (`none`). -/
def sorted_rows_current_view (sort_oldest_first : Bool) (choice : String)
    (rows : List Rec) : Option (List Rec) :=
  (pySorted (!sort_oldest_first) rows).map (apply_assignee_filter choice)

/-! ### Comment history -/

/-- An entry of the comment history: timestamp and text. -/
structure HistEntry where
  timestamp : String
  text : String
deriving DecidableEq

/-- Model of `App._add_to_comment_history`: ignore blank text, else append the
stripped text with a timestamp to the in-session list.  Note: no truncation
happens here. -/
def add_to_comment_history (hist : List HistEntry) (now text : String) :
    List HistEntry :=
  if pyStrip text = "" then hist
  else hist ++ [{ timestamp := now, text := pyStrip text }]

/-- Model of the list written by `App._save_comment_history`:
`self.comment_history[-50:]`, the 50 most recent entries. -/
def save_comment_history (hist : List HistEntry) : List HistEntry :=
  hist.drop (hist.length - 50)

/-- Model of `App._load_comment_history`: the loaded list, truncated to the
last 50 entries only when it is longer than 50. -/
def load_comment_history (stored : List HistEntry) : List HistEntry :=
  if 50 < stored.length then stored.drop (stored.length - 50) else stored

/-! ### Paginated fetcher

`list_investigations` loops over the v2 list endpoint.  The fake server is a
list of pages with honest metadata: page `index` holds `pages[index]` (empty
when out of range), `metadata.total_pages` is the page count and
`metadata.index` echoes the requested index.  The loop body mirrors the
source: stop on an empty page; otherwise accumulate and stop when
`total_pages == 0 or current_index >= total_pages - 1`. -/

def fetchPages (pages : List (List α)) (index : Nat) (acc : List α) : List α :=
  let items := pages.getD index []
  if items.isEmpty then acc
  else
    let acc2 := acc ++ items
    let total_pages := pages.length
    if h : total_pages = 0 ∨ total_pages - 1 ≤ index then acc2
    else fetchPages pages (index + 1) acc2
termination_by pages.length - index
decreasing_by simp_wf; omega

/-- Model of `list_investigations` against a fake server: start at page index
0 with an empty accumulator. -/
def list_investigations (pages : List (List α)) : List α :=
  fetchPages pages 0 []

/-! ### API calls and the network oracle

Mutating helpers are modelled as functions of a `Net` oracle that fixes each
request's outcome; every helper also returns the list of requests it issued,
so that "no network call" and "this update was sent" are statable. -/

/-- A network request the program can issue. -/
inductive ApiCall where
  | putStatus (key status : String)
  | putDisposition (key dispo : String)
  | patchAssignee (key email : String)
  | putAssignee (key email : String)
  | getInvestigation (key : String)
  | postComment (target body : String)
deriving DecidableEq

/-- Outcome of the v2 `GET /investigations/{id}` used by `get_rrn`:
an HTTP failure (`raise_for_status`), a payload that is not a dict (the
"Unexpected v2 GET response shape" branch), or a record — possibly wrapped
under a `data` key, which `get_rrn` unwraps before this point — whose `rrn`
field is the given string (empty models missing or empty, both falsy). -/
inductive V2GetResult where
  | httpError (msg : String)
  | badShape
  | record (rrn : String)

/-- The network oracle: one field per endpoint.  `Option String` outcomes are
`none` on HTTP success and `some msg` when `raise_for_status` raises with
message `msg`; `patch_assignee_status` is the raw status code of the PATCH;
`post_comment_resp` is the status code and response text of the POST. -/
structure Net where
  set_status_resp : String → String → Option String
  set_disposition_resp : String → String → Option String
  patch_assignee_status : String → String → Nat
  put_assignee_resp : String → String → Option String
  v2_get : String → V2GetResult
  post_comment_resp : String → String → Nat × String

/-- Model of `set_status`: one PUT, raising on a non-2xx response. -/
def set_status (net : Net) (id_or_rrn new_status : String) :
    Except String Unit × List ApiCall :=
  match net.set_status_resp id_or_rrn new_status with
  | none => (Except.ok (), [ApiCall.putStatus id_or_rrn new_status])
  | some e => (Except.error e, [ApiCall.putStatus id_or_rrn new_status])

/-- Model of `set_disposition`: one PUT, raising on a non-2xx response. -/
def set_disposition (net : Net) (id_or_rrn disposition : String) :
    Except String Unit × List ApiCall :=
  match net.set_disposition_resp id_or_rrn disposition with
  | none => (Except.ok (), [ApiCall.putDisposition id_or_rrn disposition])
  | some e => (Except.error e, [ApiCall.putDisposition id_or_rrn disposition])

/-- Model of `assign_user`: PATCH first; done if its status is 200 or 204,
otherwise fall back to the dedicated PUT, raising on its non-2xx response. -/
def assign_user (net : Net) (id_or_rrn assignee_email : String) :
    Except String Unit × List ApiCall :=
  let code := net.patch_assignee_status id_or_rrn assignee_email
  if code = 200 ∨ code = 204 then
    (Except.ok (), [ApiCall.patchAssignee id_or_rrn assignee_email])
  else
    match net.put_assignee_resp id_or_rrn assignee_email with
    | none => (Except.ok (),
        [ApiCall.patchAssignee id_or_rrn assignee_email,
         ApiCall.putAssignee id_or_rrn assignee_email])
    | some e => (Except.error e,
        [ApiCall.patchAssignee id_or_rrn assignee_email,
         ApiCall.putAssignee id_or_rrn assignee_email])

/-- Model of `get_rrn`: empty input raises `ValueError`; an input that already
starts with `"rrn:"` is returned unchanged with no request; otherwise one GET,
whose envelope is unwrapped and whose `rrn` field must be non-empty. -/
def get_rrn (net : Net) (id_or_rrn : String) : Except String String × List ApiCall :=
  if id_or_rrn = "" then (Except.error "Missing investigation id/rrn", [])
  else if pyStartsWith id_or_rrn "rrn:" then (Except.ok id_or_rrn, [])
  else
    match net.v2_get id_or_rrn with
    | V2GetResult.httpError e => (Except.error e, [ApiCall.getInvestigation id_or_rrn])
    | V2GetResult.badShape =>
        (Except.error "Unexpected v2 GET response shape", [ApiCall.getInvestigation id_or_rrn])
    | V2GetResult.record rrn =>
        if rrn = "" then
          (Except.error "Could not find RRN in v2 response", [ApiCall.getInvestigation id_or_rrn])
        else (Except.ok rrn, [ApiCall.getInvestigation id_or_rrn])

/-- The dict returned by `create_comment_v1`, restricted to the fields the
caller reads (`ok`, `status`, `text`; the echoed `url` and `body` are
presentation-only). -/
structure CommentResult where
  ok : Bool
  status : Nat
  text : String
deriving DecidableEq

/-- Model of `create_comment_v1`: empty text short-circuits to a successful
204 outcome with no request; otherwise one POST, successful iff the status
code is 200 or 201. -/
def create_comment_v1 (net : Net) (target_rrn text : String) :
    CommentResult × List ApiCall :=
  if text = "" then ({ ok := true, status := 204, text := "" }, [])
  else
    let (code, rtext) := net.post_comment_resp target_rrn text
    ({ ok := code = 200 ∨ code = 201, status := code, text := pyStrip rtext },
     [ApiCall.postComment target_rrn text])

/-! ### The bulk-update worker -/

/-- The mutation spec the worker closes over, with Python truthiness made
explicit: an empty string is a field that is not requested
(`chosen_status` may be any string; `chosen_dispo`, `chosen_email` and
`comment` are `None` or non-empty in the source, both collapsing to the
empty-string test). -/
structure MutationSpec where
  status : String := ""
  dispo : String := ""
  email : String := ""
  comment : String := ""
deriving DecidableEq

/-- Sequencing of two fallible, request-issuing steps: the second runs only
when the first succeeded, and the traces concatenate. -/
def seqCalls (a b : Except String Unit × List ApiCall) :
    Except String Unit × List ApiCall :=
  match a with
  | (Except.ok _, cs) => (b.1, cs ++ b.2)
  | (Except.error e, cs) => (Except.error e, cs)

/-- The `if chosen_status:` step of the worker's `try` block. -/
def statusStep (net : Net) (spec : MutationSpec) (inv_key_v2 : String) :
    Except String Unit × List ApiCall :=
  if spec.status ≠ "" then set_status net inv_key_v2 spec.status else (Except.ok (), [])

/-- The `if chosen_dispo:` step of the worker's `try` block. -/
def dispoStep (net : Net) (spec : MutationSpec) (inv_key_v2 : String) :
    Except String Unit × List ApiCall :=
  if spec.dispo ≠ "" then set_disposition net inv_key_v2 spec.dispo else (Except.ok (), [])

/-- The `if chosen_email:` step of the worker's `try` block. -/
def assignStep (net : Net) (spec : MutationSpec) (inv_key_v2 : String) :
    Except String Unit × List ApiCall :=
  if spec.email ≠ "" then assign_user net inv_key_v2 spec.email else (Except.ok (), [])

/-- The target resolution `target_rrn = inv_rrn or get_rrn(inv_id)` of the
comment step. -/
def resolveTarget (net : Net) (rec : Rec) : Except String String × List ApiCall :=
  if rec.rrn ≠ "" then (Except.ok rec.rrn, []) else get_rrn net rec.id

/-- The `if comment:` step of the worker's `try` block: resolve the target
RRN (`inv_rrn or get_rrn(inv_id)`), post the comment, and raise
`Comment HTTP ...` when the outcome is not ok. -/
def commentStep (net : Net) (spec : MutationSpec) (rec : Rec) :
    Except String Unit × List ApiCall :=
  if spec.comment ≠ "" then
    match resolveTarget net rec with
    | (Except.error e, cs1) => (Except.error e, cs1)
    | (Except.ok target_rrn, cs1) =>
        match create_comment_v1 net target_rrn spec.comment with
        | (info, cs2) =>
            if info.ok then (Except.ok (), cs1 ++ cs2)
            else
              (Except.error ("Comment HTTP " ++ toString info.status ++ " " ++ info.text),
               cs1 ++ cs2)
  else (Except.ok (), [])

/-- The v2 key the worker uses for a record: `inv_id or inv_rrn`. -/
def inv_key_v2 (r : Rec) : String :=
  if r.id ≠ "" then r.id else r.rrn

/-- One record's pass through the worker's `try` block: the four steps in the
fixed order status → disposition → assignee → comment, a failure aborting the
record's remaining steps. -/
def recordAttempt (net : Net) (spec : MutationSpec) (rec : Rec) :
    Except String Unit × List ApiCall :=
  seqCalls (statusStep net spec (inv_key_v2 rec))
    (seqCalls (dispoStep net spec (inv_key_v2 rec))
      (seqCalls (assignStep net spec (inv_key_v2 rec)) (commentStep net spec rec)))

/-- The worker's accumulated outcome: the `results` dict (`successes`,
`fails`), the comment-history appends the worker scheduled, and the full
request trace. -/
structure RunResults where
  successes : Nat
  fails : List String
  history_appends : List String
  calls : List ApiCall
deriving DecidableEq

/-- Processing of one record at 1-based position `idx`: on success, bump the
success count, appending the comment to history when the run requested a
comment and `idx == 1 and successes == 0`; on failure, record
`"title: error"`. -/
def runStep (net : Net) (spec : MutationSpec) (st : RunResults) (idx : Nat)
    (rec : Rec) : RunResults :=
  match recordAttempt net spec rec with
  | (Except.ok _, cs) =>
      { successes := st.successes + 1
        fails := st.fails
        history_appends :=
          if spec.comment ≠ "" ∧ idx = 1 ∧ st.successes = 0 then
            st.history_appends ++ [spec.comment]
          else st.history_appends
        calls := st.calls ++ cs }
  | (Except.error e, cs) =>
      { st with
        fails := st.fails ++ [rec.title ++ ": " ++ e]
        calls := st.calls ++ cs }

/-- The worker's loop from 1-based position `idx` with accumulated state. -/
def runWorkerFrom (net : Net) (spec : MutationSpec) :
    Nat → RunResults → List Rec → RunResults
  | _, st, [] => st
  | idx, st, rec :: rest =>
      runWorkerFrom net spec (idx + 1) (runStep net spec st idx rec) rest

/-- Model of the `worker` closure of `App.update_selected_async`:
`for idx, rec in enumerate(rows, start=1)` over fresh results. -/
def runWorker (net : Net) (spec : MutationSpec) (rows : List Rec) : RunResults :=
  runWorkerFrom net spec 1 { successes := 0, fails := [], history_appends := [], calls := [] } rows

/-! ### Assignee directory -/

/-- Model of `get_assignees_from_settings` on the raw configured
`(name, email)` pairs: the synthetic "Unassigned / No Change" entry with an
empty address always comes first, followed by the configured entries whose
stripped name and email are both non-empty. -/
def get_assignees_from_settings (assignees : List (String × String)) :
    List (String × String) :=
  if assignees.isEmpty then [("Unassigned / No Change", "")]
  else
    ("Unassigned / No Change", "") ::
      assignees.filterMap (fun p =>
        let name := pyStrip p.1
        let email := pyStrip p.2
        if name ≠ "" ∧ email ≠ "" then some (name, email) else none)

/-- Model of the worker-setup loop mapping the chosen combo-box label back to
an email: the first directory entry whose rendered label (`"name <email>"`,
or just the name when the address is empty) matches wins, and `e or None`
collapses an empty address to "no email" (modelled as `""`). -/
def chosen_email_of : List (String × String) → String → String
  | [], _ => ""
  | (n, e) :: rest, lbl =>
      if (if e ≠ "" then n ++ " <" ++ e ++ ">" else n) = lbl then e
      else chosen_email_of rest lbl

/-- A network oracle with every mutation succeeding, used to instantiate
universally quantified theorems at concrete inputs. -/
def anyNet : Net where
  set_status_resp := fun _ _ => none
  set_disposition_resp := fun _ _ => none
  patch_assignee_status := fun _ _ => 204
  put_assignee_resp := fun _ _ => none
  v2_get := fun _ => V2GetResult.record "rrn:resolved"
  post_comment_resp := fun _ _ => (201, "")

/-! ### Theorems -/

/-- C8: resolving an identifier that already carries the canonical `"rrn:"`
prefix returns it unchanged and issues no network request. -/
theorem c8_canonical_resolve_noop (net : Net) (s : String)
    (h : pyStartsWith s "rrn:" = true) :
    get_rrn net s = (Except.ok s, []) := by
  have hne : s ≠ "" := by
    intro he
    subst he
    exact absurd h (by decide)
  unfold get_rrn
  simp [hne, h]

/-- Witness for C8 at the concrete canonical name `"rrn:abc"`. -/
theorem c8_canonical_resolve_noop_witness :
    get_rrn anyNet "rrn:abc" = (Except.ok "rrn:abc", []) :=
  c8_canonical_resolve_noop anyNet "rrn:abc" (by decide)

/-- C10: posting an empty comment returns a successful outcome (ok, status
204) without any network request, and the worker's comment step with no
requested comment is a no-op, so an empty comment body cannot fail a
record. -/
theorem c10_empty_comment_success_no_request (net : Net) (target : String)
    (spec : MutationSpec) (rec0 : Rec) (h : spec.comment = "") :
    create_comment_v1 net target "" = ({ ok := true, status := 204, text := "" }, []) ∧
    commentStep net spec rec0 = (Except.ok (), []) := by
  constructor
  · simp [create_comment_v1]
  · simp [commentStep, h]

/-- Witness for C10 at a concrete target and an empty mutation spec. -/
theorem c10_empty_comment_success_no_request_witness :
    create_comment_v1 anyNet "rrn:abc" "" = ({ ok := true, status := 204, text := "" }, []) ∧
    commentStep anyNet { comment := "" } { title := "t" } = (Except.ok (), []) :=
  c10_empty_comment_success_no_request anyNet "rrn:abc" { comment := "" } { title := "t" } rfl

/-- C7: the assignee filter passes everything for `All`, keeps exactly the
records with no assignee contact for `Unassigned`, keeps exactly the records
whose assignee equals the choice for any other value, and always yields a
sublist (order preserved). -/
theorem c7_assignee_filter_cases (rows : List Rec) (choice : String) :
    (choice = "All" → apply_assignee_filter choice rows = rows) ∧
    (choice = "Unassigned" →
      ∀ r : Rec, r ∈ apply_assignee_filter choice rows ↔
        r ∈ rows ∧ assignee_from_rec r = "") ∧
    (choice ≠ "All" → choice ≠ "Unassigned" →
      ∀ r : Rec, r ∈ apply_assignee_filter choice rows ↔
        r ∈ rows ∧ assignee_from_rec r = choice) ∧
    (apply_assignee_filter choice rows).Sublist rows := by
  refine ⟨?_, ?_, ?_, ?_⟩
  · intro h
    simp [apply_assignee_filter, h]
  · intro h r
    subst h
    rw [apply_assignee_filter, if_neg (by decide), if_pos rfl]
    simp [List.mem_filter]
  · intro h1 h2 r
    rw [apply_assignee_filter, if_neg h1, if_neg h2]
    simp [List.mem_filter]
  · rw [apply_assignee_filter]
    split
    · exact List.Sublist.refl _
    · split
      · exact List.filter_sublist _
      · exact List.filter_sublist _

/-- Witness for C7: concrete filtering by `Unassigned` and by a literal
address on a two-record list. -/
theorem c7_assignee_filter_cases_witness :
    ({ title := "a", assignee_email := "x@y.z" } : Rec) ∈
        apply_assignee_filter "x@y.z"
          [{ title := "a", assignee_email := "x@y.z" }, { title := "b" }] ∧
    ¬ ({ title := "b" } : Rec) ∈
        apply_assignee_filter "x@y.z"
          [{ title := "a", assignee_email := "x@y.z" }, { title := "b" }] := by
  constructor
  · exact ((c7_assignee_filter_cases
      [{ title := "a", assignee_email := "x@y.z" }, { title := "b" }] "x@y.z").2.2.1
      (by decide) (by decide) _).mpr (by decide)
  · intro hmem
    exact absurd (((c7_assignee_filter_cases
      [{ title := "a", assignee_email := "x@y.z" }, { title := "b" }] "x@y.z").2.2.1
      (by decide) (by decide) _).mp hmem) (by decide)

/-- C2 counterexample: the in-session history (`self.comment_history`) is not
truncated by `_add_to_comment_history`, so 51 appends in one session leave 51
entries — the claim's 50-entry bound on the in-session list fails. -/
theorem c2_in_session_history_counterexample :
    50 < ((List.replicate 51 "x").foldl
      (fun h t => add_to_comment_history h "2025-01-01 00:00:00" t) []).length := by
  decide

/-- C2 amended: after any sequence of appends, the persisted history (written
through by `_save_comment_history` on every append) holds at most 50 entries,
is a suffix of the in-session list (so any evicted entries are exactly the
oldest, in FIFO order), is the whole list while it fits, has exactly 50
entries once the in-session list reaches 50, and agrees with the truncation
the next `_load_comment_history` applies. -/
theorem c2_persisted_history_bounded (appends : List (String × String)) :
    (save_comment_history (appends.foldl
        (fun acc p => add_to_comment_history acc p.1 p.2) [])).length ≤ 50 ∧
    save_comment_history (appends.foldl
        (fun acc p => add_to_comment_history acc p.1 p.2) []) <:+
      (appends.foldl (fun acc p => add_to_comment_history acc p.1 p.2) []) ∧
    ((appends.foldl (fun acc p => add_to_comment_history acc p.1 p.2) []).length ≤ 50 →
      save_comment_history (appends.foldl
        (fun acc p => add_to_comment_history acc p.1 p.2) []) =
        appends.foldl (fun acc p => add_to_comment_history acc p.1 p.2) []) ∧
    (50 ≤ (appends.foldl (fun acc p => add_to_comment_history acc p.1 p.2) []).length →
      (save_comment_history (appends.foldl
        (fun acc p => add_to_comment_history acc p.1 p.2) [])).length = 50) ∧
    load_comment_history (appends.foldl
        (fun acc p => add_to_comment_history acc p.1 p.2) []) =
      save_comment_history (appends.foldl
        (fun acc p => add_to_comment_history acc p.1 p.2) []) := by
  set h := appends.foldl (fun acc p => add_to_comment_history acc p.1 p.2) [] with hdef
  refine ⟨?_, ?_, ?_, ?_, ?_⟩
  · simp only [save_comment_history, List.length_drop]
    omega
  · exact List.drop_suffix _ _
  · intro hle
    have h0 : h.length - 50 = 0 := by omega
    simp [save_comment_history, h0]
  · intro hge
    simp only [save_comment_history, List.length_drop]
    omega
  · unfold load_comment_history save_comment_history
    split
    · rfl
    · next hlt =>
      have h0 : h.length - 50 = 0 := by omega
      simp [h0]

/-- Witness for C2's amended claim: 51 appends leave exactly 50 persisted
entries. -/
theorem c2_persisted_history_bounded_witness :
    (save_comment_history ((List.replicate 51 ("t", "x")).foldl
      (fun acc p => add_to_comment_history acc p.1 p.2) [])).length = 50 :=
  (c2_persisted_history_bounded (List.replicate 51 ("t", "x"))).2.2.2.1 (by decide)

/-- Requests past the server's last page return an empty page, and the
fetcher stops there. -/
theorem fetchPages_oor {α : Type} (pages : List (List α)) (i : Nat) (acc : List α)
    (hge : pages.length ≤ i) : fetchPages pages i acc = acc := by
  have hnone : pages[i]? = none := List.getElem?_eq_none hge
  unfold fetchPages
  simp [List.getD, hnone]

/-- Loop invariant of the paginated fetcher against an honest server whose
pages are all non-empty (as produced by paginating any dataset): from page
`index` it returns the accumulator followed by all remaining pages. -/
theorem fetchPages_join {α : Type} (pages : List (List α)) (hne : ∀ p ∈ pages, p ≠ []) :
    ∀ n i acc, pages.length - i ≤ n →
      fetchPages pages i acc = acc ++ (pages.drop i).flatten := by
  intro n
  induction n with
  | zero =>
    intro i acc h0
    have hge : pages.length ≤ i := by omega
    rw [fetchPages_oor pages i acc hge, List.drop_eq_nil_of_le hge]
    simp
  | succ n ih =>
    intro i acc h
    by_cases hi : i < pages.length
    · have hsome : pages[i]? = some (pages[i]) := List.getElem?_eq_getElem hi
      have hne2 : pages[i] ≠ [] := hne _ (List.getElem_mem hi)
      obtain ⟨a, t, hp⟩ : ∃ a t, pages[i] = a :: t := by
        cases hp : pages[i] with
        | nil => exact absurd hp hne2
        | cons a t => exact ⟨a, t, rfl⟩
      unfold fetchPages
      rw [List.drop_eq_getElem_cons hi]
      simp only [List.getD, List.get?_eq_getElem?, hsome, Option.getD_some, hp,
        List.isEmpty_cons, Bool.false_eq_true, if_false, List.flatten_cons]
      by_cases hstop : pages.length = 0 ∨ pages.length - 1 ≤ i
      · rw [dif_pos hstop]
        have hi1 : pages.length ≤ i + 1 := by omega
        rw [List.drop_eq_nil_of_le hi1]
        simp
      · rw [dif_neg hstop]
        rw [ih (i + 1) (acc ++ (a :: t)) (by omega)]
        simp
    · have hge : pages.length ≤ i := by omega
      rw [fetchPages_oor pages i acc hge, List.drop_eq_nil_of_le hge]
      simp

/-- C4: against an honest fake server with any number of non-empty pages of
any sizes, the (terminating, as it is a total function) fetcher returns
exactly the concatenation of all pages — in particular without duplicates
whenever the server's data has none. -/
theorem c4_fetch_returns_all_pages {α : Type} (pages : List (List α))
    (hne : ∀ p ∈ pages, p ≠ []) :
    list_investigations pages = pages.flatten ∧
    (pages.flatten.Nodup → (list_investigations pages).Nodup) := by
  have h := fetchPages_join pages hne pages.length 0 [] (by omega)
  simp only [List.drop_zero, List.nil_append] at h
  refine ⟨h, fun hnd => ?_⟩
  rw [list_investigations, h]
  exact hnd

/-- Witness for C4 on a concrete three-page server with ragged page sizes. -/
theorem c4_fetch_returns_all_pages_witness :
    list_investigations ([[1, 2], [3], [4, 5, 6]] : List (List Nat)) = [1, 2, 3, 4, 5, 6] :=
  (c4_fetch_returns_all_pages [[1, 2], [3], [4, 5, 6]] (by decide)).1.trans (by decide)

instance : IsTotal Rec (fun a b => dtInstant (key_fn a) ≤ dtInstant (key_fn b)) :=
  ⟨fun a b => le_total (dtInstant (key_fn a)) (dtInstant (key_fn b))⟩

instance : IsTrans Rec (fun a b => dtInstant (key_fn a) ≤ dtInstant (key_fn b)) :=
  ⟨fun _ _ _ hab hbc => le_trans hab hbc⟩

instance : IsTotal Rec (fun a b => dtInstant (key_fn b) ≤ dtInstant (key_fn a)) :=
  ⟨fun a b => (le_total (dtInstant (key_fn a)) (dtInstant (key_fn b))).symm⟩

instance : IsTrans Rec (fun a b => dtInstant (key_fn b) ≤ dtInstant (key_fn a)) :=
  ⟨fun _ _ _ hab hbc => le_trans hbc hab⟩

instance : IsAntisymm Rec (fun a b => dtInstant (key_fn a) < dtInstant (key_fn b)) :=
  ⟨fun _ _ h1 h2 => absurd (lt_trans h1 h2) (lt_irrefl _)⟩

/-- When the key set is homogeneous, every comparison the sort makes is a
defined Python comparison: `pySorted` only totalises orders `dtLE` defines. -/
theorem dtLE_defined_of_not_mixed (rows : List Rec) (hmix : mixedKeys rows = false) :
    ∀ r1 ∈ rows, ∀ r2 ∈ rows, (dtLE (key_fn r1) (key_fn r2)).isSome = true := by
  intro r1 h1 r2 h2
  unfold mixedKeys at hmix
  rw [Bool.and_eq_false_iff] at hmix
  have hclass : dtIsAware (key_fn r1) = dtIsAware (key_fn r2) := by
    rcases hmix with hmix | hmix <;> rw [List.any_eq_false] at hmix
    all_goals
      have e1 := hmix r1 h1
      have e2 := hmix r2 h2
      cases hb1 : dtIsAware (key_fn r1) <;> cases hb2 : dtIsAware (key_fn r2) <;> simp_all
  simp [dtLE, hclass]

/-- The completed-sort order is a permutation of its input in both
directions. -/
theorem sortRecs_perm (rev : Bool) (rows : List Rec) :
    List.Perm (sortRecs rev rows) rows := by
  cases rev <;> simpa [sortRecs] using List.perm_insertionSort _ rows

/-- The ascending (`reverse=False`) completed sort is ordered by
non-decreasing instant. -/
theorem sortRecs_asc_sorted (rows : List Rec) :
    (sortRecs false rows).Sorted
      (fun a b => dtInstant (key_fn a) ≤ dtInstant (key_fn b)) := by
  simpa [sortRecs] using
    List.sorted_insertionSort (fun a b => dtInstant (key_fn a) ≤ dtInstant (key_fn b)) rows

/-- The descending (`reverse=True`) completed sort is ordered by
non-increasing instant. -/
theorem sortRecs_desc_sorted (rows : List Rec) :
    (sortRecs true rows).Sorted
      (fun a b => dtInstant (key_fn b) ≤ dtInstant (key_fn a)) := by
  simpa [sortRecs] using
    List.sorted_insertionSort (fun a b => dtInstant (key_fn b) ≤ dtInstant (key_fn a)) rows

/-- C5 counterexample: two records sharing one parseable timestamp.  The sort
completes (no mixed keys) and is stable in both directions, so the two
directions return the same list and are not reverses of each other. -/
theorem c5_tied_timestamps_counterexample :
    (pyFromIso "2024-05-01T10:00:00Z").isSome = true ∧
    (pySorted true [({ title := "a", created_time := "2024-05-01T10:00:00Z" } : Rec),
        ({ title := "b", created_time := "2024-05-01T10:00:00Z" } : Rec)]).map List.reverse ≠
      pySorted false [({ title := "a", created_time := "2024-05-01T10:00:00Z" } : Rec),
        ({ title := "b", created_time := "2024-05-01T10:00:00Z" } : Rec)] := by
  decide

/-- C5 amended: when every record's timestamp is parseable, the parsed
keys do not mix offset-naive with offset-aware values (so the sort completes
instead of raising `TypeError`), and the parsed instants are pairwise
distinct, the two sort directions complete and are exact reverses of each
other.  (With tied keys stability makes both directions agree, so
distinctness is required.) -/
theorem c5_sort_directions_reverse (rows : List Rec)
    (hp : ∀ r ∈ rows, (pyFromIso r.created_time).isSome = true)
    (hmix : mixedKeys rows = false)
    (hnd : rows.Pairwise (fun a b => dtInstant (key_fn a) ≠ dtInstant (key_fn b))) :
    ∃ asc desc, pySorted false rows = some asc ∧ pySorted true rows = some desc ∧
      desc.reverse = asc := by
  refine ⟨sortRecs false rows, sortRecs true rows, by simp [pySorted, hmix],
    by simp [pySorted, hmix], ?_⟩
  have hpermA : List.Perm (sortRecs false rows) rows := sortRecs_perm false rows
  have hpermD : List.Perm (sortRecs true rows) rows := sortRecs_perm true rows
  have hsortA : (sortRecs false rows).Sorted
      (fun a b => dtInstant (key_fn a) ≤ dtInstant (key_fn b)) :=
    sortRecs_asc_sorted rows
  have hsortDR : ((sortRecs true rows).reverse).Sorted
      (fun a b => dtInstant (key_fn a) ≤ dtInstant (key_fn b)) :=
    List.pairwise_reverse.mpr (sortRecs_desc_sorted rows)
  have hndA : (sortRecs false rows).Pairwise
      (fun a b => dtInstant (key_fn a) ≠ dtInstant (key_fn b)) :=
    (List.Perm.pairwise_iff (fun hx => Ne.symm hx) hpermA).mpr hnd
  have hndDR : ((sortRecs true rows).reverse).Pairwise
      (fun a b => dtInstant (key_fn a) ≠ dtInstant (key_fn b)) :=
    (List.Perm.pairwise_iff (fun hx => Ne.symm hx)
      ((List.reverse_perm _).trans hpermD)).mpr hnd
  have strict : ∀ l : List Rec,
      l.Sorted (fun a b => dtInstant (key_fn a) ≤ dtInstant (key_fn b)) →
      l.Pairwise (fun a b => dtInstant (key_fn a) ≠ dtInstant (key_fn b)) →
      l.Sorted (fun a b => dtInstant (key_fn a) < dtInstant (key_fn b)) := by
    intro l h1 h2
    exact (h1.and h2).imp (fun hab => lt_of_le_of_ne hab.1 hab.2)
  exact List.eq_of_perm_of_sorted
    ((List.reverse_perm _).trans (hpermD.trans hpermA.symm))
    (strict _ hsortDR hndDR) (strict _ hsortA hndA)

/-- Witness for C5's amended claim on two records with distinct parseable
aware timestamps. -/
theorem c5_sort_directions_reverse_witness :
    ∃ asc desc,
      pySorted false [({ title := "a", created_time := "2024-05-01T10:00:00Z" } : Rec),
        ({ title := "b", created_time := "2024-05-02T10:00:00Z" } : Rec)] = some asc ∧
      pySorted true [({ title := "a", created_time := "2024-05-01T10:00:00Z" } : Rec),
        ({ title := "b", created_time := "2024-05-02T10:00:00Z" } : Rec)] = some desc ∧
      desc.reverse = asc :=
  c5_sort_directions_reverse _ (by decide) (by decide) (by decide)

/-- Whether a record's whole `try` block succeeds. -/
def attemptOk (net : Net) (spec : MutationSpec) (r : Rec) : Bool :=
  match (recordAttempt net spec r).1 with
  | Except.ok _ => true
  | Except.error _ => false

/-- The `"title: error"` entry a record contributes to `results["fails"]`,
if any. -/
def failEntry (net : Net) (spec : MutationSpec) (r : Rec) : Option String :=
  match (recordAttempt net spec r).1 with
  | Except.ok _ => none
  | Except.error e => some (r.title ++ ": " ++ e)

/-- Whether a request is one of the two assignee-mutation calls. -/
def isAssignCall : ApiCall → Bool
  | ApiCall.patchAssignee _ _ => true
  | ApiCall.putAssignee _ _ => true
  | _ => false

/-- Field equations for one worker step. -/
theorem runStep_successes (net : Net) (spec : MutationSpec) (st : RunResults)
    (idx : Nat) (r : Rec) :
    (runStep net spec st idx r).successes =
      st.successes + (if attemptOk net spec r then 1 else 0) := by
  rcases h : recordAttempt net spec r with ⟨res, cs⟩
  cases res <;> simp [runStep, attemptOk, h]

/-- The failure list grows by the record's fail entry, if any. -/
theorem runStep_fails (net : Net) (spec : MutationSpec) (st : RunResults)
    (idx : Nat) (r : Rec) :
    (runStep net spec st idx r).fails = st.fails ++ (failEntry net spec r).toList := by
  rcases h : recordAttempt net spec r with ⟨res, cs⟩
  cases res <;> simp [runStep, failEntry, h]

/-- The request trace grows by the record's own requests. -/
theorem runStep_calls (net : Net) (spec : MutationSpec) (st : RunResults)
    (idx : Nat) (r : Rec) :
    (runStep net spec st idx r).calls = st.calls ++ (recordAttempt net spec r).2 := by
  rcases h : recordAttempt net spec r with ⟨res, cs⟩
  cases res <;> simp [runStep, h]

/-- The history gains the run's comment exactly when the record succeeded, a
comment was requested, and this is record 1 with no prior successes. -/
theorem runStep_history (net : Net) (spec : MutationSpec) (st : RunResults)
    (idx : Nat) (r : Rec) :
    (runStep net spec st idx r).history_appends =
      if attemptOk net spec r = true ∧ spec.comment ≠ "" ∧ idx = 1 ∧ st.successes = 0 then
        st.history_appends ++ [spec.comment]
      else st.history_appends := by
  rcases h : recordAttempt net spec r with ⟨res, cs⟩
  cases res with
  | ok u =>
      simp only [runStep, h, attemptOk]
      by_cases hcond : spec.comment ≠ "" ∧ idx = 1 ∧ st.successes = 0
      · rw [if_pos hcond, if_pos ⟨trivial, hcond⟩]
      · rw [if_neg hcond, if_neg (fun hx => hcond hx.2)]
  | error e =>
      simp [runStep, h, attemptOk]

/-- The loop's success count is the number of records whose attempt
succeeds. -/
theorem runWorkerFrom_successes (net : Net) (spec : MutationSpec) :
    ∀ (rows : List Rec) (idx : Nat) (st : RunResults),
      (runWorkerFrom net spec idx st rows).successes =
        st.successes + rows.countP (attemptOk net spec) := by
  intro rows
  induction rows with
  | nil => intro idx st; simp [runWorkerFrom]
  | cons r rest ih =>
      intro idx st
      rw [runWorkerFrom, ih, runStep_successes, List.countP_cons]
      by_cases h : attemptOk net spec r = true <;> simp [h] <;> omega

/-- The loop's failure list is the in-order fail entries of failing
records. -/
theorem runWorkerFrom_fails (net : Net) (spec : MutationSpec) :
    ∀ (rows : List Rec) (idx : Nat) (st : RunResults),
      (runWorkerFrom net spec idx st rows).fails =
        st.fails ++ rows.filterMap (failEntry net spec) := by
  intro rows
  induction rows with
  | nil => intro idx st; simp [runWorkerFrom]
  | cons r rest ih =>
      intro idx st
      rw [runWorkerFrom, ih, runStep_fails, List.filterMap_cons]
      cases h : failEntry net spec r <;> simp [h]

/-- The loop's request trace is the concatenation of the per-record
traces. -/
theorem runWorkerFrom_calls (net : Net) (spec : MutationSpec) :
    ∀ (rows : List Rec) (idx : Nat) (st : RunResults),
      (runWorkerFrom net spec idx st rows).calls =
        st.calls ++ (rows.map (fun r => (recordAttempt net spec r).2)).flatten := by
  intro rows
  induction rows with
  | nil => intro idx st; simp [runWorkerFrom]
  | cons r rest ih =>
      intro idx st
      rw [runWorkerFrom, ih, runStep_calls]
      simp

/-- From record 2 on, the loop never appends to the comment history. -/
theorem runWorkerFrom_history_stable (net : Net) (spec : MutationSpec) :
    ∀ (rows : List Rec) (idx : Nat) (st : RunResults), 2 ≤ idx →
      (runWorkerFrom net spec idx st rows).history_appends = st.history_appends := by
  intro rows
  induction rows with
  | nil => intro idx st h2; simp [runWorkerFrom]
  | cons r rest ih =>
      intro idx st h2
      rw [runWorkerFrom, ih _ _ (by omega), runStep_history,
        if_neg (fun hx => by omega)]

/-- Membership in a sequenced trace comes from one of the two steps. -/
theorem seqCalls_mem {a b : Except String Unit × List ApiCall} {c : ApiCall}
    (hc : c ∈ (seqCalls a b).2) : c ∈ a.2 ∨ c ∈ b.2 := by
  rcases a with ⟨res, cs⟩
  cases res with
  | ok u =>
      simp only [seqCalls, List.mem_append] at hc
      exact hc.imp (fun h => h) (fun h => h)
  | error e => exact Or.inl hc

/-- A successful sequence means both steps succeeded and the traces
concatenate. -/
theorem seqCalls_ok {a b : Except String Unit × List ApiCall}
    (h : (seqCalls a b).1 = Except.ok ()) :
    a.1 = Except.ok () ∧ b.1 = Except.ok () ∧ (seqCalls a b).2 = a.2 ++ b.2 := by
  rcases a with ⟨res, cs⟩
  cases res with
  | ok u => exact ⟨rfl, h, rfl⟩
  | error e => exact absurd h (by simp [seqCalls])

/-- `set_status` always issues exactly its one PUT. -/
theorem set_status_calls (net : Net) (k s : String) :
    (set_status net k s).2 = [ApiCall.putStatus k s] := by
  unfold set_status
  cases net.set_status_resp k s <;> rfl

/-- `set_disposition` always issues exactly its one PUT. -/
theorem set_disposition_calls (net : Net) (k d : String) :
    (set_disposition net k d).2 = [ApiCall.putDisposition k d] := by
  unfold set_disposition
  cases net.set_disposition_resp k d <;> rfl

/-- `assign_user` always issues the PATCH first. -/
theorem assign_user_patch_mem (net : Net) (k e : String) :
    ApiCall.patchAssignee k e ∈ (assign_user net k e).2 := by
  unfold assign_user
  by_cases hcode : net.patch_assignee_status k e = 200 ∨ net.patch_assignee_status k e = 204
  · rw [if_pos hcode]
    simp
  · rw [if_neg hcode]
    cases h : net.put_assignee_resp k e <;> simp [h]

/-- The requests `assign_user` can issue. -/
theorem assign_user_calls_shape (net : Net) (k e : String) :
    (assign_user net k e).2 = [ApiCall.patchAssignee k e] ∨
    (assign_user net k e).2 = [ApiCall.patchAssignee k e, ApiCall.putAssignee k e] := by
  unfold assign_user
  by_cases hcode : net.patch_assignee_status k e = 200 ∨ net.patch_assignee_status k e = 204
  · rw [if_pos hcode]
    exact Or.inl rfl
  · rw [if_neg hcode]
    cases h : net.put_assignee_resp k e <;> simp [h]

/-- The requests `get_rrn` can issue. -/
theorem get_rrn_calls_shape (net : Net) (s : String) :
    (get_rrn net s).2 = [] ∨ (get_rrn net s).2 = [ApiCall.getInvestigation s] := by
  unfold get_rrn
  split
  · exact Or.inl rfl
  · split
    · exact Or.inl rfl
    · cases h : net.v2_get s with
      | httpError e => simp [h]
      | badShape => simp [h]
      | record rrn => rcases eq_or_ne rrn "" with hr | hr <;> simp [h, hr]

/-- The requests `create_comment_v1` issues. -/
theorem create_comment_calls (net : Net) (t x : String) :
    (create_comment_v1 net t x).2 =
      if x = "" then [] else [ApiCall.postComment t x] := by
  by_cases hx : x = ""
  · simp [create_comment_v1, hx]
  · rcases hm : net.post_comment_resp t x with ⟨code, rtext⟩
    simp [create_comment_v1, hx, hm]

/-- The requests `resolveTarget` can issue. -/
theorem resolveTarget_calls_shape (net : Net) (r : Rec) :
    (resolveTarget net r).2 = [] ∨
    (resolveTarget net r).2 = [ApiCall.getInvestigation r.id] := by
  unfold resolveTarget
  split
  · exact Or.inl rfl
  · exact get_rrn_calls_shape net r.id

/-- Both branches of the ok-test in the comment step carry the same trace. -/
theorem ite_pair_snd {P : Prop} [Decidable P] (x y : Except String Unit)
    (cs : List ApiCall) : (if P then (x, cs) else (y, cs)).2 = cs := by
  split <;> rfl

/-- The comment step never issues an assignee mutation. -/
theorem commentStep_no_assign (net : Net) (spec : MutationSpec) (r : Rec) :
    ∀ c ∈ (commentStep net spec r).2, isAssignCall c = false := by
  intro c hc
  by_cases hcm : spec.comment = ""
  · simp [commentStep, hcm] at hc
  · unfold commentStep at hc
    rw [if_pos hcm] at hc
    have hres : ∀ c2 ∈ (resolveTarget net r).2, isAssignCall c2 = false := by
      intro c2 h2
      rcases resolveTarget_calls_shape net r with hg | hg <;> rw [hg] at h2
      · exact absurd h2 (by simp)
      · simp only [List.mem_singleton] at h2
        subst h2
        rfl
    rcases hT : resolveTarget net r with ⟨t, cs1⟩
    rw [hT] at hc
    cases t with
    | error e =>
        dsimp only at hc
        exact hres c (by rw [hT]; exact hc)
    | ok target =>
        dsimp only at hc
        rcases hCC : create_comment_v1 net target spec.comment with ⟨info, cs2⟩
        rw [hCC] at hc
        dsimp only at hc
        rw [ite_pair_snd] at hc
        rcases List.mem_append.mp hc with h1 | h2
        · exact hres c (by rw [hT]; exact h1)
        · have hcc := create_comment_calls net target spec.comment
          rw [hCC, if_neg hcm] at hcc
          have hcc2 : cs2 = [ApiCall.postComment target spec.comment] := hcc
          rw [hcc2] at h2
          simp only [List.mem_singleton] at h2
          subst h2
          rfl

/-- When the comment step succeeds with a requested comment, the comment was
posted to some target. -/
theorem commentStep_ok_post (net : Net) (spec : MutationSpec) (r : Rec)
    (hcm : spec.comment ≠ "") (hok : (commentStep net spec r).1 = Except.ok ()) :
    ∃ t, ApiCall.postComment t spec.comment ∈ (commentStep net spec r).2 := by
  unfold commentStep at hok ⊢
  rw [if_pos hcm] at hok ⊢
  generalize hT : resolveTarget net r = tc at hok ⊢
  obtain ⟨t, cs1⟩ := tc
  cases t with
  | error e =>
      dsimp only at hok
      exact absurd hok (by simp)
  | ok target =>
      dsimp only at hok ⊢
      generalize hCC : create_comment_v1 net target spec.comment = ic at hok ⊢
      obtain ⟨info, cs2⟩ := ic
      dsimp only at hok ⊢
      have hcc := create_comment_calls net target spec.comment
      rw [hCC, if_neg hcm] at hcc
      have hcc2 : cs2 = [ApiCall.postComment target spec.comment] := hcc
      rcases Bool.eq_false_or_eq_true info.ok with hb | hb
      · simp only [hb, if_true]
        exact ⟨target, by simp [hcc2]⟩
      · simp [hb] at hok

/-- The status step issues no assignee mutation and, when requested, contains
its PUT. -/
theorem statusStep_calls_shape (net : Net) (spec : MutationSpec) (k : String) :
    (statusStep net spec k).2 = [] ∨
    (statusStep net spec k).2 = [ApiCall.putStatus k spec.status] := by
  unfold statusStep
  split
  · exact Or.inr (set_status_calls net k spec.status)
  · exact Or.inl rfl

/-- The disposition step's possible traces. -/
theorem dispoStep_calls_shape (net : Net) (spec : MutationSpec) (k : String) :
    (dispoStep net spec k).2 = [] ∨
    (dispoStep net spec k).2 = [ApiCall.putDisposition k spec.dispo] := by
  unfold dispoStep
  split
  · exact Or.inr (set_disposition_calls net k spec.dispo)
  · exact Or.inl rfl

/-- With no requested assignee the assign step issues nothing. -/
theorem assignStep_calls_empty (net : Net) (spec : MutationSpec) (k : String)
    (h : spec.email = "") : (assignStep net spec k).2 = [] := by
  simp [assignStep, h]

/-- A requested status update always sends its PUT. -/
theorem statusStep_mem (net : Net) (spec : MutationSpec) (k : String)
    (h : spec.status ≠ "") :
    ApiCall.putStatus k spec.status ∈ (statusStep net spec k).2 := by
  unfold statusStep
  rw [if_pos h, set_status_calls]
  simp

/-- A requested disposition update always sends its PUT. -/
theorem dispoStep_mem (net : Net) (spec : MutationSpec) (k : String)
    (h : spec.dispo ≠ "") :
    ApiCall.putDisposition k spec.dispo ∈ (dispoStep net spec k).2 := by
  unfold dispoStep
  rw [if_pos h, set_disposition_calls]
  simp

/-- A requested assignee update always sends its PATCH. -/
theorem assignStep_mem (net : Net) (spec : MutationSpec) (k : String)
    (h : spec.email ≠ "") :
    ApiCall.patchAssignee k spec.email ∈ (assignStep net spec k).2 := by
  unfold assignStep
  rw [if_pos h]
  exact assign_user_patch_mem net k spec.email

/-- With no requested assignee, a record's whole attempt issues no assignee
mutation. -/
theorem recordAttempt_no_assign (net : Net) (spec : MutationSpec) (r : Rec)
    (hemail : spec.email = "") :
    ∀ c ∈ (recordAttempt net spec r).2, isAssignCall c = false := by
  intro c hc
  unfold recordAttempt at hc
  rcases seqCalls_mem hc with h1 | h23
  · rcases statusStep_calls_shape net spec (inv_key_v2 r) with hs | hs <;> rw [hs] at h1
    · exact absurd h1 (by simp)
    · simp only [List.mem_singleton] at h1
      subst h1
      rfl
  · rcases seqCalls_mem h23 with h2 | h34
    · rcases dispoStep_calls_shape net spec (inv_key_v2 r) with hs | hs <;> rw [hs] at h2
      · exact absurd h2 (by simp)
      · simp only [List.mem_singleton] at h2
        subst h2
        rfl
    · rcases seqCalls_mem h34 with h3 | h4
      · rw [assignStep_calls_empty net spec _ hemail] at h3
        exact absurd h3 (by simp)
      · exact commentStep_no_assign net spec r c h4

/-- A fully successful attempt issued every requested field update. -/
theorem recordAttempt_ok_requested (net : Net) (spec : MutationSpec) (r : Rec)
    (hok : attemptOk net spec r = true) :
    (spec.status ≠ "" →
        ApiCall.putStatus (inv_key_v2 r) spec.status ∈ (recordAttempt net spec r).2) ∧
    (spec.dispo ≠ "" →
        ApiCall.putDisposition (inv_key_v2 r) spec.dispo ∈ (recordAttempt net spec r).2) ∧
    (spec.email ≠ "" →
        ApiCall.patchAssignee (inv_key_v2 r) spec.email ∈ (recordAttempt net spec r).2) ∧
    (spec.comment ≠ "" →
        ∃ t, ApiCall.postComment t spec.comment ∈ (recordAttempt net spec r).2) := by
  have hok1 : (recordAttempt net spec r).1 = Except.ok () := by
    unfold attemptOk at hok
    cases h : (recordAttempt net spec r).1 with
    | ok u => rfl
    | error e => rw [h] at hok; exact absurd hok (by simp)
  unfold recordAttempt at hok1 ⊢
  obtain ⟨ha, hrest, htrace⟩ := seqCalls_ok hok1
  obtain ⟨hb, hrest2, htrace2⟩ := seqCalls_ok hrest
  obtain ⟨hc3, hd, htrace3⟩ := seqCalls_ok hrest2
  rw [htrace, htrace2, htrace3]
  refine ⟨?_, ?_, ?_, ?_⟩
  · intro h
    exact List.mem_append.mpr (Or.inl (statusStep_mem net spec _ h))
  · intro h
    exact List.mem_append.mpr (Or.inr (List.mem_append.mpr
      (Or.inl (dispoStep_mem net spec _ h))))
  · intro h
    exact List.mem_append.mpr (Or.inr (List.mem_append.mpr (Or.inr
      (List.mem_append.mpr (Or.inl (assignStep_mem net spec _ h))))))
  · intro h
    obtain ⟨t, ht⟩ := commentStep_ok_post net spec r h hd
    exact ⟨t, List.mem_append.mpr (Or.inr (List.mem_append.mpr (Or.inr
      (List.mem_append.mpr (Or.inr ht)))))⟩

/-- Decidable equality for attempt results, so concrete failures can be
checked by evaluation. -/
instance : DecidableEq (Except String Unit) := fun a b =>
  match a, b with
  | Except.ok _, Except.ok _ => isTrue rfl
  | Except.error e1, Except.error e2 =>
      if h : e1 = e2 then isTrue (by rw [h]) else isFalse (fun hc => h (Except.error.inj hc))
  | Except.ok _, Except.error _ => isFalse (fun hc => Except.noConfusion hc)
  | Except.error _, Except.ok _ => isFalse (fun hc => Except.noConfusion hc)

/-- A successful attempt contributes no failure entry. -/
theorem attemptOk_failEntry_none (net : Net) (spec : MutationSpec) (r : Rec)
    (h : attemptOk net spec r = true) : failEntry net spec r = none := by
  unfold attemptOk at h
  unfold failEntry
  cases hres : (recordAttempt net spec r).1 with
  | ok u => rfl
  | error e => rw [hres] at h; exact absurd h (by simp)

/-- A list in which the predicate fails at exactly one position has count
one less than its length. -/
theorem countP_one_false {α : Type} (p : α → Bool) :
    ∀ (l : List α) (i : Nat) (hi : i < l.length),
      p (l.get ⟨i, hi⟩) = false →
      (∀ j (hj : j < l.length), j ≠ i → p (l.get ⟨j, hj⟩) = true) →
      l.countP p = l.length - 1 := by
  intro l
  induction l with
  | nil => intro i hi _ _; exact absurd hi (by simp)
  | cons a t ih =>
      intro i hi hp hall
      cases i with
      | zero =>
          have ht : ∀ x ∈ t, p x = true := by
            intro x hx
            rcases List.mem_iff_get.mp hx with ⟨⟨j, hj⟩, rfl⟩
            exact hall (j + 1) (by simp [List.length_cons]; omega) (by omega)
          have hpa : p a = false := hp
          rw [List.countP_cons, List.countP_eq_length.mpr ht]
          simp [hpa]
      | succ k =>
          have hk : k < t.length := by simp [List.length_cons] at hi; omega
          have hpa : p a = true := hall 0 (by simp) (by omega)
          have hp2 : p (t.get ⟨k, hk⟩) = false := hp
          have hall2 : ∀ j (hj : j < t.length), j ≠ k → p (t.get ⟨j, hj⟩) = true := by
            intro j hj hne
            exact hall (j + 1) (by simp [List.length_cons]; omega) (by omega)
          rw [List.countP_cons, ih k hk hp2 hall2, hpa]
          simp [List.length_cons]
          omega

/-- A list in which the Option-valued map is `some` at exactly one position filters
to that one value. -/
theorem filterMap_one_some {α β : Type} (f : α → Option β) :
    ∀ (l : List α) (i : Nat) (hi : i < l.length) (v : β),
      f (l.get ⟨i, hi⟩) = some v →
      (∀ j (hj : j < l.length), j ≠ i → f (l.get ⟨j, hj⟩) = none) →
      l.filterMap f = [v] := by
  intro l
  induction l with
  | nil => intro i hi _ _ _; exact absurd hi (by simp)
  | cons a t ih =>
      intro i hi v hv hall
      cases i with
      | zero =>
          have ht : ∀ x ∈ t, f x = none := by
            intro x hx
            rcases List.mem_iff_get.mp hx with ⟨⟨j, hj⟩, rfl⟩
            exact hall (j + 1) (by simp [List.length_cons]; omega) (by omega)
          have hfa : f a = some v := hv
          simp only [List.filterMap_cons, hfa]
          rw [List.filterMap_eq_nil.mpr ht]
      | succ k =>
          have hk : k < t.length := by simp [List.length_cons] at hi; omega
          have hfa : f a = none := hall 0 (by simp) (by omega)
          have hv2 : f (t.get ⟨k, hk⟩) = some v := hv
          simp only [List.filterMap_cons, hfa]
          exact ih k hk v hv2 (fun j hj hne =>
            hall (j + 1) (by simp [List.length_cons]; omega) (by omega))

/-- C1: in a bulk run where record `i` fails at some mutation step and every
other record's attempt succeeds, the run still processes everything: the
success count is `K - 1`, the failure list is exactly the one
`"title: error"` entry for record `i`, and every other record received every
requested field update (its PUT status, PUT disposition, PATCH assignee, and
POST comment requests are all in the trace, as requested). -/
theorem c1_single_failure_isolated (net : Net) (spec : MutationSpec)
    (rows : List Rec) (i : Nat) (err : String) (hi : i < rows.length)
    (hfail : (recordAttempt net spec (rows.get ⟨i, hi⟩)).1 = Except.error err)
    (hok : ∀ j (hj : j < rows.length), j ≠ i →
      attemptOk net spec (rows.get ⟨j, hj⟩) = true) :
    (runWorker net spec rows).successes = rows.length - 1 ∧
    (runWorker net spec rows).fails = [(rows.get ⟨i, hi⟩).title ++ ": " ++ err] ∧
    (∀ j (hj : j < rows.length), j ≠ i →
      (spec.status ≠ "" → ApiCall.putStatus (inv_key_v2 (rows.get ⟨j, hj⟩)) spec.status ∈
          (runWorker net spec rows).calls) ∧
      (spec.dispo ≠ "" → ApiCall.putDisposition (inv_key_v2 (rows.get ⟨j, hj⟩)) spec.dispo ∈
          (runWorker net spec rows).calls) ∧
      (spec.email ≠ "" → ApiCall.patchAssignee (inv_key_v2 (rows.get ⟨j, hj⟩)) spec.email ∈
          (runWorker net spec rows).calls) ∧
      (spec.comment ≠ "" → ∃ t, ApiCall.postComment t spec.comment ∈
          (runWorker net spec rows).calls)) := by
  have hsucc : (runWorker net spec rows).successes = rows.length - 1 := by
    unfold runWorker
    rw [runWorkerFrom_successes]
    have hfalse : attemptOk net spec (rows.get ⟨i, hi⟩) = false := by
      unfold attemptOk
      rw [hfail]
    rw [countP_one_false (attemptOk net spec) rows i hi hfalse hok]
    simp
  have hfails : (runWorker net spec rows).fails =
      [(rows.get ⟨i, hi⟩).title ++ ": " ++ err] := by
    unfold runWorker
    rw [runWorkerFrom_fails]
    have hsome : failEntry net spec (rows.get ⟨i, hi⟩) =
        some ((rows.get ⟨i, hi⟩).title ++ ": " ++ err) := by
      unfold failEntry
      rw [hfail]
    rw [filterMap_one_some (failEntry net spec) rows i hi _ hsome
      (fun j hj hne => attemptOk_failEntry_none net spec _ (hok j hj hne))]
    rfl
  refine ⟨hsucc, hfails, ?_⟩
  intro j hj hne
  have hsub : ∀ c, c ∈ (recordAttempt net spec (rows.get ⟨j, hj⟩)).2 →
      c ∈ (runWorker net spec rows).calls := by
    intro c hc
    unfold runWorker
    rw [runWorkerFrom_calls]
    refine List.mem_append.mpr (Or.inr ?_)
    exact List.mem_flatten.mpr
      ⟨_, List.mem_map.mpr ⟨rows.get ⟨j, hj⟩, List.get_mem rows j hj, rfl⟩, hc⟩
  obtain ⟨h1, h2, h3, h4⟩ := recordAttempt_ok_requested net spec _ (hok j hj hne)
  exact ⟨fun hs => hsub _ (h1 hs), fun hs => hsub _ (h2 hs), fun hs => hsub _ (h3 hs),
    fun hs => (h4 hs).elim (fun t ht => ⟨t, hsub _ ht⟩)⟩

/-- A network oracle in which the record with v2 key `"id2"` fails its status
update with HTTP 500 and everything else succeeds. -/
def c1net : Net where
  set_status_resp := fun k _ => if k = "id2" then some "HTTP 500" else none
  set_disposition_resp := fun _ _ => none
  patch_assignee_status := fun _ _ => 204
  put_assignee_resp := fun _ _ => none
  v2_get := fun _ => V2GetResult.record "rrn:resolved"
  post_comment_resp := fun _ _ => (201, "")

/-- Three selected records; the middle one is doomed by `c1net`. -/
def c1rows : List Rec :=
  [{ id := "id1", title := "t1" }, { id := "id2", title := "t2" },
   { id := "id3", title := "t3" }]

/-- Witness for C1: with three records and record 2 failing its status PUT,
the run reports 2 successes, exactly one failure entry, and record 1 still
received its status update. -/
theorem c1_single_failure_isolated_witness :
    (runWorker c1net { status := "CLOSED" } c1rows).successes = 2 ∧
    (runWorker c1net { status := "CLOSED" } c1rows).fails = ["t2: HTTP 500"] ∧
    ApiCall.putStatus "id1" "CLOSED" ∈ (runWorker c1net { status := "CLOSED" } c1rows).calls := by
  have h := c1_single_failure_isolated c1net { status := "CLOSED" } c1rows 1 "HTTP 500"
    (by decide) (by decide) (by decide)
  refine ⟨h.1.trans (by decide), h.2.1.trans (by decide), ?_⟩
  have h3 := (h.2.2 0 (by decide) (by decide)).1 (by decide)
  exact h3

/-- C3 counterexample: a two-record comment-only run where record 1's comment
fails (HTTP 500) and record 2's succeeds.  A comment was requested and one
record's comment succeeded, yet zero history entries were appended — not
exactly one, so the append is gated on record 1, not on the first record
whose comment succeeds. -/
def c3net : Net where
  set_status_resp := fun _ _ => none
  set_disposition_resp := fun _ _ => none
  patch_assignee_status := fun _ _ => 204
  put_assignee_resp := fun _ _ => none
  v2_get := fun _ => V2GetResult.record "rrn:resolved"
  post_comment_resp := fun t _ => if t = "rrn:1" then (500, "boom") else (201, "")

/-- The two records of the C3 counterexample run. -/
def c3rows : List Rec :=
  [{ rrn := "rrn:1", title := "t1" }, { rrn := "rrn:2", title := "t2" }]

/-- C3 counterexample theorem: the run requested a comment, record 2's
comment was posted and the record succeeded, yet the history received no
entry. -/
theorem c3_first_success_append_counterexample :
    ({ comment := "hello" } : MutationSpec).comment ≠ "" ∧
    (runWorker c3net { comment := "hello" } c3rows).successes = 1 ∧
    ApiCall.postComment "rrn:2" "hello" ∈
      (runWorker c3net { comment := "hello" } c3rows).calls ∧
    (runWorker c3net { comment := "hello" } c3rows).history_appends = [] := by
  decide

/-- C3 amended: in a run with a requested comment, the history receives the
comment exactly once when the first record in selection order succeeds its
whole attempt (through its comment), and nothing at all otherwise — never
once per record, and never for a later record's comment success. -/
theorem c3_comment_history_once (net : Net) (spec : MutationSpec)
    (rows : List Rec) (h : spec.comment ≠ "") :
    (runWorker net spec rows).history_appends =
      (match rows with
       | [] => []
       | r :: _ => if attemptOk net spec r then [spec.comment] else []) ∧
    (runWorker net spec rows).history_appends.length ≤ 1 := by
  have hmain : (runWorker net spec rows).history_appends =
      (match rows with
       | [] => []
       | r :: _ => if attemptOk net spec r then [spec.comment] else []) := by
    cases rows with
    | nil => rfl
    | cons r rest =>
        simp only [runWorker, runWorkerFrom]
        rw [runWorkerFrom_history_stable net spec rest 2 _ (by omega), runStep_history]
        by_cases hA : attemptOk net spec r = true
        · rw [if_pos ⟨hA, h, rfl, rfl⟩]
          simp [hA]
        · rw [if_neg (fun hx => hA hx.1)]
          simp [hA]
  refine ⟨hmain, ?_⟩
  rw [hmain]
  cases rows with
  | nil => simp
  | cons r rest =>
      by_cases hA : attemptOk net spec r = true <;> simp [hA]

/-- The five records of the C3 witness run (all comments succeed under
`anyNet`). -/
def c3wrows : List Rec :=
  [{ rrn := "rrn:a1", title := "r1" }, { rrn := "rrn:a2", title := "r2" },
   { rrn := "rrn:a3", title := "r3" }, { rrn := "rrn:a4", title := "r4" },
   { rrn := "rrn:a5", title := "r5" }]

/-- Witness for C3's amended claim: a 5-record all-success comment run
appends exactly one history entry. -/
theorem c3_comment_history_once_witness :
    (runWorker anyNet { comment := "hi" } c3wrows).history_appends = ["hi"] :=
  ((c3_comment_history_once anyNet { comment := "hi" } c3wrows (by decide)).1).trans
    (by decide)

/-- C9: choosing the synthetic "Unassigned / No Change" directory entry (the
entry with the empty contact address, always first) maps to no email, and the
resulting bulk run issues no assignee mutation (neither PATCH nor PUT) for
any record. -/
theorem c9_no_change_never_assigns (raw : List (String × String)) (net : Net)
    (status dispo comment : String) (rows : List Rec) :
    chosen_email_of (get_assignees_from_settings raw) "Unassigned / No Change" = "" ∧
    ((runWorker net
        { status := status, dispo := dispo,
          email := chosen_email_of (get_assignees_from_settings raw) "Unassigned / No Change",
          comment := comment } rows).calls.all (fun c => !isAssignCall c)) = true := by
  have hemail : chosen_email_of (get_assignees_from_settings raw) "Unassigned / No Change" = "" := by
    unfold get_assignees_from_settings
    split <;> simp [chosen_email_of]
  refine ⟨hemail, ?_⟩
  rw [hemail]
  rw [List.all_eq_true]
  intro c hcall
  unfold runWorker at hcall
  rw [runWorkerFrom_calls] at hcall
  simp only [List.nil_append] at hcall
  obtain ⟨l, hl, hcl⟩ := List.mem_flatten.mp hcall
  obtain ⟨r, _, rfl⟩ := List.mem_map.mp hl
  have := recordAttempt_no_assign net
    { status := status, dispo := dispo, email := "", comment := comment } r rfl c hcl
  simp [this]

end InsightIDR
